import Mathlib

/-!
Verification of the EmailGather repository (gather.py, cde_gather.py).

Pages are modelled as lists of anchor elements carrying an optional
reference attribute; the network is a function from URL to page.  All
string work is done on the underlying character lists so that every
definition is executable and kernel-reducible.
-/

namespace EmailGather

/-! ### Substring and replacement primitives (Python `in`, `str.replace`) -/

/-- Boolean test that the first list is a prefix of the second. -/
def prefixOf : List Char → List Char → Bool
  | [], _ => true
  | _ :: _, [] => false
  | a :: xs, b :: ys => a == b && prefixOf xs ys

/-- Python's `needle in haystack` substring test. -/
def containsSub (n : List Char) : List Char → Bool
  | [] => n.isEmpty
  | c :: cs => prefixOf n (c :: cs) || containsSub n cs

/-- Substring test on `String`, i.e. Python's `in` operator. -/
def containsStr (n h : String) : Bool := containsSub n.data h.data

/-- The pattern deleted by `href.replace('mailto:', '')` in gather.py. -/
def mailtoPat : List Char := "mailto:".data

/-- Left-to-right non-overlapping deletion of `mailto:`, exactly Python's
`str.replace('mailto:', '')`.  The first argument counts characters still
to be skipped after a match; scanning resumes after the deleted segment. -/
def stripAux : Nat → List Char → List Char
  | _, [] => []
  | k + 1, _ :: cs => stripAux k cs
  | 0, c :: cs =>
    if prefixOf mailtoPat (c :: cs) then stripAux 6 cs
    else c :: stripAux 0 cs

/-- `href.replace('mailto:', '')` on character lists. -/
def stripMailtoL (l : List Char) : List Char := stripAux 0 l

/-- gather.py lines 156, 234, 249: `href.replace('mailto:', '')`. -/
def stripMailto (s : String) : String := String.mk (stripMailtoL s.data)

/-- The pattern replaced by `newurl.replace("href", href)` in gather.py. -/
def hrefPat : List Char := "href".data

/-- Left-to-right non-overlapping replacement of `href` by a given value,
Python's `newurl.replace("href", href)`; replacements are not rescanned. -/
def rewriteAux (v : List Char) : Nat → List Char → List Char
  | _, [] => []
  | k + 1, _ :: cs => rewriteAux v k cs
  | 0, c :: cs =>
    if prefixOf hrefPat (c :: cs) then v ++ rewriteAux v 3 cs
    else c :: rewriteAux v 0 cs

/-- gather.py line 111: `newurl.replace("href", href)`. -/
def rewriteHref (newurl h : String) : String := String.mk (rewriteAux h.data 0 newurl.data)

/-! ### The syntactic email validator

gather.py lines 234 and 250 test candidates with
`re.match("^[a-zA-Z0-9._%+-]+@[a-zA-Z0-9.-]+\.[a-zA-Z]{2,}$", s)`.
The checker below decides exactly that anchored pattern.  (Python's `$`
would additionally tolerate one trailing newline; reference attributes
never carry one, and the claims quote the pattern itself, so the pattern
is modelled with a strict end anchor.) -/

/-- Characters of the class `[a-zA-Z0-9._%+-]` (the local part). -/
def isLocalChar (c : Char) : Bool :=
  c.isAlpha || c.isDigit || c == '.' || c == '_' || c == '%' || c == '+' || c == '-'

/-- Characters of the class `[a-zA-Z0-9.-]` (the domain part). -/
def isDomainChar (c : Char) : Bool :=
  c.isAlpha || c.isDigit || c == '.' || c == '-'

/-- The final label `[A-Za-z]{2,}` anchored at the end of the string. -/
def isTld (t : List Char) : Bool :=
  decide (2 ≤ t.length) && t.all Char.isAlpha

/-- Matches `[a-zA-Z0-9.-]*\.[a-zA-Z]{2,}$`: some domain characters, a
literal dot, then the final label.  Both arms of the disjunction mirror
the two ways the regex can consume the head character. -/
def matchAfterFirst : List Char → Bool
  | [] => false
  | c :: cs => (c == '.' && isTld cs) || (isDomainChar c && matchAfterFirst cs)

/-- Matches `[a-zA-Z0-9.-]+\.[a-zA-Z]{2,}$` (nonempty domain). -/
def matchDomain : List Char → Bool
  | [] => false
  | c :: cs => isDomainChar c && matchAfterFirst cs

/-- Matches `[a-zA-Z0-9._%+-]*@` followed by the domain pattern. -/
def matchLocalRest : List Char → Bool
  | [] => false
  | c :: cs => (c == '@' && matchDomain cs) || (isLocalChar c && matchLocalRest cs)

/-- The full anchored pattern `^[a-zA-Z0-9._%+-]+@[a-zA-Z0-9.-]+\.[a-zA-Z]{2,}$`. -/
def matchEmail : List Char → Bool
  | [] => false
  | c :: cs => isLocalChar c && matchLocalRest cs

/-- The validator of gather.py lines 234/250 applied to a string. -/
def validateEmail (s : String) : Bool := matchEmail s.data

/-- The address pattern as the specification words it (section 4.3): a
nonempty local part over `[A-Za-z0-9._%+-]`, an `@`, a nonempty domain
over `[A-Za-z0-9.-]`, a dot, and a final label of two or more letters. -/
def SpecEmailPattern (s : List Char) : Prop :=
  ∃ l d t : List Char,
    s = l ++ '@' :: (d ++ '.' :: t) ∧
    l ≠ [] ∧ l.all isLocalChar = true ∧
    d ≠ [] ∧ d.all isDomainChar = true ∧
    2 ≤ t.length ∧ t.all Char.isAlpha = true

/-! ### Documents and link discovery (gather.py `get_links`, `get_school_links`) -/

/-- An anchor element; `href` is `none` when the attribute is absent.
Per the Document Indexer boundary, a page is reduced to its anchor-like
elements, since all heuristics in gather.py only inspect anchors. -/
structure Anchor where
  href : Option String
deriving DecidableEq

/-- A parsed page, as the sequence of its anchors in document order. -/
abbrev Page := List Anchor

/-- gather.py lines 101-112, non-international branch: every anchor whose
reference is present (nonempty, Python truthiness) and contains the target
is kept, rewritten against the base-URL template, in document order. -/
def get_links : List Anchor → String → String → List String
  | [], _, _ => []
  | a :: rest, target, newurl =>
    match a.href with
    | some h =>
      if (h != "") && containsStr target h
      then rewriteHref newurl h :: get_links rest target newurl
      else get_links rest target newurl
    | none => get_links rest target newurl

/-- One `h3.mb20` result entry of the international listing; `link.find('a')`
yields its first anchor, or `None` when it has none. -/
structure H3Entry where
  anchors : List Anchor

/-- The parsed international listing page: `soup.find('div', id='cities-schools')`
is `none` exactly when that container is absent from the document. -/
structure ListingDoc where
  citiesSchools : Option (List H3Entry)

/-- gather.py lines 101-112, international branch: each entry's first anchor
is inspected; an entry with no anchor makes `None.get('href')` raise, which
propagates to the caller (modelled as `Except.error`). -/
def get_links_intl : List H3Entry → String → Except String (List String)
  | [], _ => .ok []
  | e :: rest, target =>
    match e.anchors.head? with
    | none => .error "AttributeError: NoneType object has no attribute get"
    | some a =>
      match get_links_intl rest target with
      | .error m => .error m
      | .ok tl =>
        match a.href with
        | some h => .ok (if (h != "") && containsStr target h then h :: tl else tl)
        | none => .ok tl

/-- gather.py lines 126-133, international mode: when the cities/schools
container is absent, `soup.find(...)` is `None` and the call
`None.find_all('h3', class_='mb20')` raises; the exception propagates. -/
def get_school_links_intl (doc : ListingDoc) (target : String) : Except String (List String) :=
  match doc.citiesSchools with
  | none => .error "AttributeError: NoneType object has no attribute find_all"
  | some entries => get_links_intl entries target

/-! ### The public-school single-anchor scan (gather.py lines 135-158) -/

/-- gather.py lines 152-158: the first anchor whose reference contains `@`
yields that reference with `mailto:` removed; no validation is applied.
(The Python guard `if href and ...` is subsumed: a nonempty needle is
never contained in the empty string.) -/
def extract_emails_from_school_page : Page → Option String
  | [] => none
  | a :: rest =>
    match a.href with
    | some h =>
      if containsStr "@" h then some (stripMailto h)
      else extract_emails_from_school_page rest
    | none => extract_emails_from_school_page rest

/-- gather.py lines 182-185: the public-school branch folds every school
page's extracted address (when any) into the `all_emails` set. -/
def runPublic (fetch : String → Page) (links : List String) : Finset String :=
  links.foldl (fun acc url =>
    match extract_emails_from_school_page (fetch url) with
    | some e => insert e acc
    | none => acc) ∅

/-! ### The international contact resolver (gather.py lines 219-254) -/

/-- gather.py lines 230-231: the contact-page anchor filter — the reference
must contain one of the inclusion keywords and none of the exclusions. -/
def contactPageFilter (h : String) : Bool :=
  (["info", "contact", "dir", "administration"].any fun i => containsStr i h) &&
  (["recru", "www", "office"].all fun g => !containsStr g h)

/-- gather.py lines 245-246: the main-page fallback filter — the reference
must contain `@` and none of the exclusions. -/
def mainPageFilter (h : String) : Bool :=
  containsStr "@" h && (["recru", "www"].all fun g => !containsStr g h)

/-- The references of a page's anchors that pass a filter, in document
order: `soup.find_all(has_at_in_href)` followed by reading `tag['href']`. -/
def filteredHrefs (flt : String → Bool) (p : Page) : List String :=
  p.filterMap fun a =>
    match a.href with
    | some h => if flt h then some h else none
    | none => none

/-- gather.py line 226: a relative contact reference is resolved against
the organization URL; one containing `http` is kept as is. -/
def resolveContact (url h : String) : String :=
  if containsStr "http" h then h else url ++ h

/-- gather.py lines 233-239: the loop over the contact page's filtered
anchors.  The first validated address is inserted and the loop stops with
the failure flag cleared; every non-validating anchor sets the flag. -/
def validateLoop : List String → Bool → Finset String → Bool × Finset String
  | [], fc, acc => (fc, acc)
  | h :: rest, _, acc =>
    if validateEmail (stripMailto h) then (false, insert (stripMailto h) acc)
    else validateLoop rest true acc

/-- The state left by the scan over the main page's anchors: the last
contact URL tried (if any), the failure flag, and the address set. -/
structure ScanResult where
  contactUrl : Option String
  failedContact : Bool
  emails : Finset String
deriving DecidableEq

/-- gather.py lines 223-241: scan the main page's anchors for a reference
containing `contact`; each hit fetches that page and runs `validateLoop`
over its filtered anchors; the scan stops as soon as the failure flag is
clear after a hit, otherwise it continues with the flag carried over.
(The Python guard `if href and ...` is subsumed: `contact` is never
contained in the empty string.) -/
def scanContact (fetch : String → Page) (url : String) :
    List Anchor → Option String → Bool → Finset String → ScanResult
  | [], cu, fc, acc => ⟨cu, fc, acc⟩
  | a :: rest, cu, fc, acc =>
    match a.href with
    | none => scanContact fetch url rest cu fc acc
    | some h =>
      if containsStr "contact" h then
        let r := validateLoop (filteredHrefs contactPageFilter (fetch (resolveContact url h))) fc acc
        if r.1 then scanContact fetch url rest (some (resolveContact url h)) r.1 r.2
        else ⟨some (resolveContact url h), r.1, r.2⟩
      else scanContact fetch url rest cu fc acc

/-- gather.py lines 248-252: the main-page fallback loop; every validated
address is inserted (no early exit) and clears the failure flag. -/
def fallbackLoop : List String → Bool → Finset String → Bool × Finset String
  | [], fc, acc => (fc, acc)
  | h :: rest, fc, acc =>
    if validateEmail (stripMailto h) then fallbackLoop rest false (insert (stripMailto h) acc)
    else fallbackLoop rest fc acc

/-- gather.py lines 219-254, the body of the per-organization loop: run the
contact scan; when no contact URL was found or the failure flag is set, run
the fallback over the main page's `@`-bearing anchors and record the URL
as failed when the flag is still set afterwards. -/
def processOrg (fetch : String → Page) (url : String) (acc failed : Finset String) :
    Finset String × Finset String :=
  let s := scanContact fetch url (fetch url) none false acc
  if s.contactUrl.isNone || s.failedContact then
    let r := fallbackLoop (filteredHrefs mainPageFilter (fetch url)) s.failedContact s.emails
    (r.2, if r.1 then insert url failed else failed)
  else (s.emails, failed)

/-- The whole international run: organizations processed in sequence,
accumulating the address set and the failure set from empty. -/
def runInternational (fetch : String → Page) (urls : List String) :
    Finset String × Finset String :=
  urls.foldl (fun st url => processOrg fetch url st.1 st.2) (∅, ∅)

/-- gather.py lines 256-258 and 266-269: both sets are written out sorted
(Python `sorted`, lexicographic on strings). -/
def finalizeSet (s : Finset String) : List String := s.sort (· ≤ ·)

/-! ### cde_gather.py: administrator-info extraction -/

/-- Python `str.strip()`: drop leading and trailing whitespace. -/
def pstripL (s : List Char) : List Char :=
  ((s.dropWhile Char.isWhitespace).reverse.dropWhile Char.isWhitespace).reverse

/-- Python `str.strip()` on `String`. -/
def pstrip (s : String) : String := String.mk (pstripL s.data)

/-- Python `text.split("\n")` on character lists. -/
def splitNlAux (cur : List Char) : List Char → List (List Char)
  | [] => [cur.reverse]
  | c :: cs => if c == '\n' then cur.reverse :: splitNlAux [] cs else splitNlAux (c :: cur) cs

/-- Python `text.split("\n")`. -/
def splitNl (s : List Char) : List (List Char) := splitNlAux [] s

/-- cde_gather.py line 91: the stripped nonempty lines of a cell's text. -/
def linesOf (t : String) : List String :=
  ((splitNl t.data).map fun l => String.mk (pstripL l)).filter fun s => s != ""

/-- An attempt to match the unanchored email pattern of
`re.findall(r'[a-zA-Z0-9._%+-]+@[a-zA-Z0-9.-]+\.[a-zA-Z]{2,}', text)` whose
domain run is given: the rightmost dot followed by at least two letters is
the one the backtracking engine settles on.  Returns the part before that
dot, the maximal letter run after it, and the leftover of the run. -/
def rightmostDot : List Char → Option (List Char × List Char × List Char)
  | [] => none
  | c :: cs =>
    match rightmostDot cs with
    | some (dp, t, r) => some (c :: dp, t, r)
    | none =>
      if c == '.' then
        let t := cs.takeWhile Char.isAlpha
        if 2 ≤ t.length then some ([], t, cs.drop t.length) else none
      else none

/-- Attempt the unanchored email pattern at the head of the input; on
success return the matched text and the rest of the input after it. -/
def tryEmailAt (s : List Char) : Option (List Char × List Char) :=
  let l := s.takeWhile isLocalChar
  if l.isEmpty then none else
  match s.drop l.length with
  | '@' :: afterAt =>
    let d := afterAt.takeWhile isDomainChar
    match rightmostDot d with
    | some (dp, tld, leftover) =>
      if dp.isEmpty then none
      else some (l ++ '@' :: dp ++ '.' :: tld, leftover ++ afterAt.drop d.length)
    | none => none
  | _ => none

/-- Leftmost non-overlapping matches, as `re.findall` produces them; the
fuel is the input length (every match consumes at least one character). -/
def findEmailsAux : Nat → List Char → List (List Char)
  | 0, _ => []
  | _, [] => []
  | fuel + 1, c :: cs =>
    match tryEmailAt (c :: cs) with
    | some (m, rest) => m :: findEmailsAux fuel rest
    | none => findEmailsAux fuel cs

/-- cde_gather.py lines 57-59: `list(set(re.findall(pattern, text)))`.
The Python set iteration order is unspecified; every use site feeds the
result into a set, so dedup order is immaterial. -/
def extract_emails (text : String) : List String :=
  (((findEmailsAux text.data.length text.data).map String.mk).dedup)

/-- The separator class `[-.\s]` of the phone pattern. -/
def isSepChar (c : Char) : Bool := c == '-' || c == '.' || c.isWhitespace

/-- Exactly `n` digits from the head of the input. -/
def takeDigits : Nat → List Char → Option (List Char × List Char)
  | 0, s => some ([], s)
  | _ + 1, [] => none
  | n + 1, c :: cs =>
    if c.isDigit then
      match takeDigits n cs with
      | some (d, r) => some (c :: d, r)
      | none => none
    else none

/-- Matches `[-.\s]?\d{4}` with the optional separator tried first. -/
def phoneTail2 (s : List Char) : Option (List Char × List Char) :=
  match s with
  | c :: cs =>
    if isSepChar c then
      match takeDigits 4 cs with
      | some (d, r) => some (c :: d, r)
      | none => takeDigits 4 s
    else takeDigits 4 s
  | [] => none

/-- Matches `\d{3}[-.\s]?\d{4}`. -/
def phoneTail1 (s : List Char) : Option (List Char × List Char) :=
  match takeDigits 3 s with
  | some (d, r) =>
    match phoneTail2 r with
    | some (m, r2) => some (d ++ m, r2)
    | none => none
  | none => none

/-- Matches `[-.\s]?\d{3}[-.\s]?\d{4}`. -/
def phoneSep1 (s : List Char) : Option (List Char × List Char) :=
  match s with
  | c :: cs =>
    if isSepChar c then
      match phoneTail1 cs with
      | some (m, r) => some (c :: m, r)
      | none => phoneTail1 s
    else phoneTail1 s
  | [] => none

/-- Matches `\)?[-.\s]?\d{3}[-.\s]?\d{4}`. -/
def phoneClose (s : List Char) : Option (List Char × List Char) :=
  match s with
  | ')' :: cs =>
    match phoneSep1 cs with
    | some (m, r) => some (')' :: m, r)
    | none => phoneSep1 s
  | _ => phoneSep1 s

/-- Matches `\d{3}\)?[-.\s]?\d{3}[-.\s]?\d{4}`. -/
def phoneArea (s : List Char) : Option (List Char × List Char) :=
  match takeDigits 3 s with
  | some (d, r) =>
    match phoneClose r with
    | some (m, r2) => some (d ++ m, r2)
    | none => none
  | none => none

/-- Attempt the phone pattern `\(?\d{3}\)?[-.\s]?\d{3}[-.\s]?\d{4}` at the
head of the input, the optional opening parenthesis tried first. -/
def tryPhoneAt (s : List Char) : Option (List Char × List Char) :=
  match s with
  | '(' :: cs =>
    match phoneArea cs with
    | some (m, r) => some ('(' :: m, r)
    | none => phoneArea s
  | _ => phoneArea s

/-- Leftmost non-overlapping phone matches, as `re.findall` produces. -/
def findPhonesAux : Nat → List Char → List (List Char)
  | 0, _ => []
  | _, [] => []
  | fuel + 1, c :: cs =>
    match tryPhoneAt (c :: cs) with
    | some (m, rest) => m :: findPhonesAux fuel rest
    | none => findPhonesAux fuel cs

/-- cde_gather.py lines 61-63: `list(set(re.findall(phonePattern, text)))`. -/
def extract_phone_numbers (text : String) : List String :=
  (((findPhonesAux text.data.length text.data).map String.mk).dedup)

/-- A table cell as the two text renderings the code reads from it:
`get_text(strip=True)` for label cells and `get_text("\n")` for data cells. -/
structure Cell where
  textStrip : String
  textNl : String

/-- A table row: `row.find_all(['th', 'td'])`. -/
structure Row where
  cells : List Cell

/-- The record returned by `get_administrator_info` (its four fields). -/
structure AdminInfo where
  administratorNames : String
  administratorTitles : String
  allEmails : String
  allPhones : String
deriving DecidableEq

/-- The accumulators of the row loop at cde_gather.py lines 74-77. -/
structure AdminState where
  names : List String
  titles : List String
  emails : Finset String
  phones : Finset String

/-- cde_gather.py lines 79-120, one row: dispatch on the first cell's
stripped text.  A matching label row with no second cell makes `cells[1]`
raise IndexError, which the enclosing `try` turns into the empty record. -/
def stepRow (st : AdminState) (row : Row) : Except String AdminState :=
  match row.cells with
  | [] => .ok st
  | c0 :: rest =>
    if c0.textStrip == "Administrator" then
      match rest with
      | [] => .error "IndexError: list index out of range"
      | c1 :: _ =>
        let adminText := pstrip c1.textNl
        let st1 : AdminState :=
          { st with emails := st.emails ∪ (extract_emails adminText).toFinset,
                    phones := st.phones ∪ (extract_phone_numbers adminText).toFinset }
        match linesOf adminText with
        | [] => .ok st1
        | n :: more =>
          .ok { st1 with names := st1.names ++ [n],
                         titles := st1.titles ++ (match more with | t :: _ => [t] | [] => []) }
    else if c0.textStrip == "Chief Business Official" then
      match rest with
      | [] => .error "IndexError: list index out of range"
      | c1 :: _ =>
        let t := pstrip c1.textNl
        .ok { st with emails := st.emails ∪ (extract_emails t).toFinset,
                      phones := st.phones ∪ (extract_phone_numbers t).toFinset }
    else if c0.textStrip == "Email" then
      match rest with
      | [] => .error "IndexError: list index out of range"
      | c1 :: _ =>
        let t := pstrip c1.textNl
        .ok { st with emails := st.emails ∪ (extract_emails t).toFinset }
    else if c0.textStrip == "School Records" then
      match rest with
      | [] => .error "IndexError: list index out of range"
      | c1 :: _ =>
        let t := pstrip c1.textNl
        .ok { st with emails := st.emails ∪ (extract_emails t).toFinset,
                      phones := st.phones ∪ (extract_phone_numbers t).toFinset }
    else .ok st

/-- The row loop; any raised error aborts it and propagates. -/
def processRows : List Row → AdminState → Except String AdminState
  | [], st => .ok st
  | r :: rest, st =>
    match stepRow st r with
    | .error e => .error e
    | .ok st2 => processRows rest st2

/-- cde_gather.py lines 122-127: the four joined fields (the sets sorted;
joining the empty list already yields the empty string). -/
def renderAdminInfo (st : AdminState) : AdminInfo :=
  { administratorNames := String.intercalate ", " st.names
    administratorTitles := String.intercalate ", " st.titles
    allEmails := String.intercalate ", " (st.emails.sort (· ≤ ·))
    allPhones := String.intercalate ", " (st.phones.sort (· ≤ ·)) }

/-- The record returned on any caught error (cde_gather.py line 131). -/
def emptyAdminInfo : AdminInfo := ⟨"", "", "", ""⟩

/-- cde_gather.py lines 65-131: the input is the outcome of fetching and
parsing the details page into its table rows; any error raised there, or
while processing the rows, is caught and yields the empty record. -/
def get_administrator_info (fetched : Except String (List Row)) : AdminInfo :=
  match fetched with
  | .error _ => emptyAdminInfo
  | .ok rows =>
    match processRows rows ⟨[], [], ∅, ∅⟩ with
    | .error _ => emptyAdminInfo
    | .ok st => renderAdminInfo st

/-! ### Concrete webs used by the counterexamples and witnesses below -/

/-- A public-school page whose only anchor carries an address with no
top-level domain: the single-anchor scan stores it unvalidated. -/
def fetchC1 : String → Page := fun _ => [⟨some "mailto:x@y"⟩]

/-- A one-page web whose main page holds a single valid address anchor. -/
def fetchC1w : String → Page := fun _ => [⟨some "mailto:a@b.cd"⟩]

/-- A web where the contact page exists but none of its anchors pass the
inclusion filter, while the main page holds a valid `@`-bearing anchor. -/
def fetchC2 : String → Page := fun u =>
  if u == "s" then [⟨some "/contact"⟩, ⟨some "mailto:z@q.com"⟩]
  else if u == "s/contact" then [⟨some "mailto:plain@x.com"⟩]
  else []

/-- A one-page web with a valid address anchor and no contact anchor. -/
def fetchC2w : String → Page := fun _ => [⟨some "mailto:a2@b.cd"⟩]

/-- A web whose main page has no contact anchor and no `@`-bearing anchor. -/
def fetchC3 : String → Page := fun _ => [⟨some "/about"⟩]

/-- A web whose contact page carries two anchors that both pass the filter
and both validate. -/
def fetchC4 : String → Page := fun u =>
  if u == "s" then [⟨some "/contact"⟩]
  else if u == "s/contact" then [⟨some "mailto:info@a.com"⟩, ⟨some "mailto:info@b.com"⟩]
  else []

/-! ### Sanity checks of the embedding on concrete inputs -/

example : validateEmail "a.b+c@sub.example.org" = true := by decide
example : validateEmail "not-an-email" = false := by decide
example : validateEmail "x@y" = false := by decide
example : stripMailto "mailto:x@y.com" = "x@y.com" := by decide
example : stripMailto "amailto:b" = "ab" := by decide
example : rewriteHref "Xhrefcontact" "/a" = "X/acontact" := by decide
example : containsStr "contact" "/contact-us" = true := by decide
example : extract_emails "reach a@b.com or c@d.org today" = ["a@b.com", "c@d.org"] := by decide
example : extract_phone_numbers "call (123) 456-7890 now" = ["(123) 456-7890"] := by decide
example :
    (processRows [⟨[⟨"Administrator", "Administrator"⟩,
      ⟨"B", " Jane Doe\nPrincipal\njd@x.org "⟩]⟩] ⟨[], [], ∅, ∅⟩).toOption.map
        (fun st => (st.names, st.titles, decide ("jd@x.org" ∈ st.emails))) =
      some (["Jane Doe"], ["Principal"], true) := by decide
example : runInternational fetchC1w ["u"] = ({"a@b.cd"}, ∅) := by decide

/-! ### The validator decides exactly the specified pattern -/

lemma isTld_iff {t : List Char} : isTld t = true ↔ 2 ≤ t.length ∧ t.all Char.isAlpha = true := by
  simp [isTld]

lemma matchAfterFirst_iff : ∀ r : List Char, matchAfterFirst r = true ↔
    ∃ d t : List Char, r = d ++ '.' :: t ∧ d.all isDomainChar = true ∧ isTld t = true := by
  intro r
  induction r with
  | nil =>
    constructor
    · intro h; simp [matchAfterFirst] at h
    · rintro ⟨d, t, heq, -, -⟩
      cases d <;> simp_all
  | cons c cs ih =>
    constructor
    · intro h
      simp only [matchAfterFirst, Bool.or_eq_true, Bool.and_eq_true, beq_iff_eq] at h
      rcases h with ⟨rfl, htld⟩ | ⟨hdc, hrec⟩
      · exact ⟨[], cs, rfl, rfl, htld⟩
      · rcases ih.mp hrec with ⟨d, t, heq, hall, htld⟩
        refine ⟨c :: d, t, by simp [heq], ?_, htld⟩
        simp [List.all_cons, hdc, hall]
    · rintro ⟨d, t, heq, hall, htld⟩
      cases d with
      | nil =>
        simp only [List.nil_append] at heq
        injection heq with h1 h2
        subst h1; subst h2
        simp [matchAfterFirst, htld]
      | cons d0 d' =>
        simp only [List.cons_append] at heq
        injection heq with h1 h2
        subst h1; subst h2
        simp only [List.all_cons, Bool.and_eq_true] at hall
        have hr : matchAfterFirst (d' ++ '.' :: t) = true :=
          ih.mpr ⟨d', t, rfl, hall.2, htld⟩
        simp [matchAfterFirst, hall.1, hr]

lemma matchDomain_iff : ∀ r : List Char, matchDomain r = true ↔
    ∃ d t : List Char, r = d ++ '.' :: t ∧ d ≠ [] ∧ d.all isDomainChar = true ∧
      isTld t = true := by
  intro r
  cases r with
  | nil =>
    constructor
    · intro h; simp [matchDomain] at h
    · rintro ⟨d, t, heq, -, -, -⟩
      cases d <;> simp_all
  | cons c cs =>
    constructor
    · intro h
      simp only [matchDomain, Bool.and_eq_true] at h
      rcases (matchAfterFirst_iff cs).mp h.2 with ⟨d, t, heq, hall, htld⟩
      exact ⟨c :: d, t, by simp [heq], by simp, by simp [List.all_cons, h.1, hall], htld⟩
    · rintro ⟨d, t, heq, hne, hall, htld⟩
      cases d with
      | nil => exact absurd rfl hne
      | cons d0 d' =>
        simp only [List.cons_append] at heq
        injection heq with h1 h2
        subst h1; subst h2
        simp only [List.all_cons, Bool.and_eq_true] at hall
        have hr : matchAfterFirst (d' ++ '.' :: t) = true :=
          (matchAfterFirst_iff _).mpr ⟨d', t, rfl, hall.2, htld⟩
        simp [matchDomain, hall.1, hr]

lemma matchLocalRest_iff : ∀ r : List Char, matchLocalRest r = true ↔
    ∃ l rest : List Char, r = l ++ '@' :: rest ∧ l.all isLocalChar = true ∧
      matchDomain rest = true := by
  intro r
  induction r with
  | nil =>
    constructor
    · intro h; simp [matchLocalRest] at h
    · rintro ⟨l, rest, heq, -, -⟩
      cases l <;> simp_all
  | cons c cs ih =>
    constructor
    · intro h
      simp only [matchLocalRest, Bool.or_eq_true, Bool.and_eq_true, beq_iff_eq] at h
      rcases h with ⟨rfl, hdom⟩ | ⟨hlc, hrec⟩
      · exact ⟨[], cs, rfl, rfl, hdom⟩
      · rcases ih.mp hrec with ⟨l, rest, heq, hall, hdom⟩
        refine ⟨c :: l, rest, by simp [heq], ?_, hdom⟩
        simp [List.all_cons, hlc, hall]
    · rintro ⟨l, rest, heq, hall, hdom⟩
      cases l with
      | nil =>
        simp only [List.nil_append] at heq
        injection heq with h1 h2
        subst h1; subst h2
        simp [matchLocalRest, hdom]
      | cons l0 l' =>
        simp only [List.cons_append] at heq
        injection heq with h1 h2
        subst h1; subst h2
        simp only [List.all_cons, Bool.and_eq_true] at hall
        have hr : matchLocalRest (l' ++ '@' :: rest) = true :=
          ih.mpr ⟨l', rest, rfl, hall.2, hdom⟩
        simp [matchLocalRest, hall.1, hr]

lemma matchEmail_iff (s : List Char) : matchEmail s = true ↔ SpecEmailPattern s := by
  cases s with
  | nil =>
    constructor
    · intro h; simp [matchEmail] at h
    · rintro ⟨l, d, t, heq, hlne, -, -, -, -, -⟩
      cases l <;> simp_all
  | cons c cs =>
    constructor
    · intro h
      simp only [matchEmail, Bool.and_eq_true] at h
      rcases (matchLocalRest_iff cs).mp h.2 with ⟨l, rest, heq, hall, hdom⟩
      rcases (matchDomain_iff rest).mp hdom with ⟨d, t, heq2, hdne, hdall, htld⟩
      refine ⟨c :: l, d, t, by simp [heq, heq2], by simp, ?_, hdne, hdall,
        (isTld_iff.mp htld).1, (isTld_iff.mp htld).2⟩
      simp [List.all_cons, h.1, hall]
    · rintro ⟨l, d, t, heq, hlne, hlall, hdne, hdall, htlen, htal⟩
      cases l with
      | nil => exact absurd rfl hlne
      | cons l0 l' =>
        simp only [List.cons_append] at heq
        injection heq with h1 h2
        subst h1; subst h2
        simp only [List.all_cons, Bool.and_eq_true] at hlall
        have hdom : matchDomain (d ++ '.' :: t) = true :=
          (matchDomain_iff _).mpr ⟨d, t, rfl, hdne, hdall, isTld_iff.mpr ⟨htlen, htal⟩⟩
        have hlr : matchLocalRest (l' ++ '@' :: (d ++ '.' :: t)) = true :=
          (matchLocalRest_iff _).mpr ⟨l', _, rfl, hlall.2, hdom⟩
        simp [matchEmail, hlall.1, hlr]

/-! ### Characterizing the `mailto:` deletion -/

lemma stripAux_zero_cons (c : Char) (cs : List Char) :
    stripAux 0 (c :: cs) =
      if prefixOf mailtoPat (c :: cs) then stripAux 6 cs else c :: stripAux 0 cs := rfl

lemma stripAux_length_le : ∀ (l : List Char) (k : Nat), (stripAux k l).length ≤ l.length - k := by
  intro l
  induction l with
  | nil => intro k; simp [stripAux]
  | cons c cs ih =>
    intro k
    cases k with
    | succ k =>
      have := ih k
      simp only [stripAux, List.length_cons]
      omega
    | zero =>
      rw [stripAux_zero_cons]
      by_cases hp : prefixOf mailtoPat (c :: cs) = true
      · have := ih 6
        rw [if_pos hp]
        simp only [List.length_cons]
        omega
      · have := ih 0
        rw [if_neg hp]
        simp only [List.length_cons]
        omega

lemma stripAux_lt_of_contains : ∀ l : List Char, containsSub mailtoPat l = true →
    (stripAux 0 l).length < l.length := by
  intro l
  induction l with
  | nil =>
    intro h
    rw [show containsSub mailtoPat [] = false from by decide] at h
    exact absurd h (by simp)
  | cons c cs ih =>
    intro h
    rw [stripAux_zero_cons]
    by_cases hp : prefixOf mailtoPat (c :: cs) = true
    · have h6 := stripAux_length_le cs 6
      rw [if_pos hp]
      simp only [List.length_cons]
      omega
    · have hc : containsSub mailtoPat cs = true := by
        simp only [containsSub, Bool.or_eq_true] at h
        rcases h with h | h
        · exact absurd h hp
        · exact h
      have := ih hc
      rw [if_neg hp]
      simp only [List.length_cons]
      omega

lemma stripAux_eq_of_not_contains : ∀ l : List Char, containsSub mailtoPat l = false →
    stripAux 0 l = l := by
  intro l
  induction l with
  | nil => intro _; simp [stripAux]
  | cons c cs ih =>
    intro h
    simp only [containsSub, Bool.or_eq_false_iff] at h
    rw [stripAux_zero_cons, if_neg (by simp [h.1]), ih h.2]

lemma stripMailtoL_eq_iff (l : List Char) :
    stripMailtoL l = l ↔ containsSub mailtoPat l = false := by
  constructor
  · intro h
    cases hc : containsSub mailtoPat l
    · rfl
    · have hlt := stripAux_lt_of_contains l hc
      simp only [stripMailtoL] at h
      rw [h] at hlt
      omega
  · intro h
    simpa [stripMailtoL] using stripAux_eq_of_not_contains l h

/-! ### Invariants of the international resolver -/

lemma validateLoop_valid : ∀ (hs : List String) (fc : Bool) (acc : Finset String),
    (∀ e ∈ acc, validateEmail e = true) →
    ∀ e ∈ (validateLoop hs fc acc).2, validateEmail e = true := by
  intro hs
  induction hs with
  | nil => intro fc acc hacc e he; exact hacc e he
  | cons h rest ih =>
    intro fc acc hacc e he
    simp only [validateLoop] at he
    split at he
    case isTrue hv =>
      rcases Finset.mem_insert.mp he with rfl | hmem
      · exact hv
      · exact hacc e hmem
    case isFalse hv => exact ih true acc hacc e he

lemma fallbackLoop_valid : ∀ (hs : List String) (fc : Bool) (acc : Finset String),
    (∀ e ∈ acc, validateEmail e = true) →
    ∀ e ∈ (fallbackLoop hs fc acc).2, validateEmail e = true := by
  intro hs
  induction hs with
  | nil => intro fc acc hacc e he; exact hacc e he
  | cons h rest ih =>
    intro fc acc hacc e he
    simp only [fallbackLoop] at he
    split at he
    case isTrue hv =>
      refine ih false (insert (stripMailto h) acc) ?_ e he
      intro x hx
      rcases Finset.mem_insert.mp hx with rfl | hmem
      · exact hv
      · exact hacc x hmem
    case isFalse hv => exact ih fc acc hacc e he

lemma fallbackLoop_mono : ∀ (hs : List String) (fc : Bool) (acc : Finset String) (e : String),
    e ∈ acc → e ∈ (fallbackLoop hs fc acc).2 := by
  intro hs
  induction hs with
  | nil => intro fc acc e he; exact he
  | cons h rest ih =>
    intro fc acc e he
    simp only [fallbackLoop]
    split
    · exact ih false _ e (Finset.mem_insert_of_mem he)
    · exact ih fc acc e he

lemma fallbackLoop_mem : ∀ (hs : List String) (fc : Bool) (acc : Finset String) (h : String),
    h ∈ hs → validateEmail (stripMailto h) = true →
    stripMailto h ∈ (fallbackLoop hs fc acc).2 := by
  intro hs
  induction hs with
  | nil => intro fc acc h hmem; exact absurd hmem (by simp)
  | cons h0 rest ih =>
    intro fc acc h hmem hval
    rcases List.mem_cons.mp hmem with rfl | hmem'
    · simp only [fallbackLoop, hval, if_pos]
      exact fallbackLoop_mono rest false _ _ (Finset.mem_insert_self _ _)
    · simp only [fallbackLoop]
      split
      · exact ih false _ h hmem' hval
      · exact ih fc acc h hmem' hval

lemma scanContact_valid (fetch : String → Page) (url : String) :
    ∀ (l : List Anchor) (cu : Option String) (fc : Bool) (acc : Finset String),
    (∀ e ∈ acc, validateEmail e = true) →
    ∀ e ∈ (scanContact fetch url l cu fc acc).emails, validateEmail e = true := by
  intro l
  induction l with
  | nil => intro cu fc acc hacc e he; exact hacc e he
  | cons a rest ih =>
    intro cu fc acc hacc e he
    obtain ⟨href⟩ := a
    cases href with
    | none => exact ih cu fc acc hacc e he
    | some h =>
      simp only [scanContact] at he
      split at he
      case isTrue hc =>
        split at he
        case isTrue hr => exact ih _ _ _ (validateLoop_valid _ fc acc hacc) e he
        case isFalse hr => exact validateLoop_valid _ fc acc hacc e he
      case isFalse hc => exact ih cu fc acc hacc e he

lemma processOrg_valid (fetch : String → Page) (url : String) (acc failed : Finset String)
    (hacc : ∀ e ∈ acc, validateEmail e = true) :
    ∀ e ∈ (processOrg fetch url acc failed).1, validateEmail e = true := by
  intro e he
  simp only [processOrg] at he
  split at he
  · exact fallbackLoop_valid _ _ _ (scanContact_valid fetch url _ _ _ _ hacc) e he
  · exact scanContact_valid fetch url _ _ _ _ hacc e he

lemma runFold_valid (fetch : String → Page) :
    ∀ (urls : List String) (st : Finset String × Finset String),
    (∀ e ∈ st.1, validateEmail e = true) →
    ∀ e ∈ (urls.foldl (fun st url => processOrg fetch url st.1 st.2) st).1,
      validateEmail e = true := by
  intro urls
  induction urls with
  | nil => intro st h e he; exact h e he
  | cons u rest ih =>
    intro st h e he
    simp only [List.foldl_cons] at he
    exact ih (processOrg fetch u st.1 st.2) (processOrg_valid fetch u st.1 st.2 h) e he

lemma containsStr_empty_right (t : String) (ht : t ≠ "") : containsStr t "" = false := by
  obtain ⟨d⟩ := t
  cases d with
  | nil => exact absurd rfl ht
  | cons c cs => rfl

/-! ### Claim C1 -/

/-- Claim C1, counterexample: the public-school single-anchor scan stores
the stripped reference of the first `@`-bearing anchor without running the
validator; on a page whose only anchor is `mailto:x@y` the aggregate ends
up holding `x@y`, which the validator rejects (no top-level domain).  So
not every address in the final result passed the syntactic validator. -/
theorem C1_counterexample :
    runPublic fetchC1 ["p"] = {"x@y"} ∧ validateEmail "x@y" = false := by decide

/-- Claim C1, amended: every address accumulated by the international
branch (contact-page ladder and main-page fallback) passed the syntactic
validator; the public-school single-anchor scan, however, stores its
candidate unvalidated. -/
theorem C1_international_validated (fetch : String → Page) (urls : List String) (e : String)
    (he : e ∈ (runInternational fetch urls).1) : validateEmail e = true :=
  runFold_valid fetch urls (∅, ∅) (by simp) e he

/-- Claim C1, witness instantiating the amended theorem on a one-page web. -/
theorem C1_witness : validateEmail "a@b.cd" = true :=
  C1_international_validated fetchC1w ["u"] "a@b.cd" (by decide)

/-! ### Claim C2 -/

/-- Claim C2, counterexample: a found contact page none of whose anchors
pass the inclusion/exclusion filters leaves the failure flag clear, so the
resolver stops without ever scanning the main page — the valid
`mailto:z@q.com` anchor sitting there is never collected and the final
address set is empty, although the claim requires a second pass. -/
theorem C2_counterexample :
    filteredHrefs contactPageFilter (fetchC2 "s/contact") = [] ∧
    mainPageFilter "mailto:z@q.com" = true ∧
    validateEmail (stripMailto "mailto:z@q.com") = true ∧
    runInternational fetchC2 ["s"] = (∅, ∅) := by decide

/-- Claim C2, amended: the second pass over the main page runs exactly
when no contact anchor was found or the contact scan ended with the
failure flag set (the last contact page processed had at least one
filter-passing anchor and none validated); in that case every main-page
anchor that carries `@`, avoids the recru/www keywords, and validates is
collected.  A contact page whose anchors all fail the filters terminates
the scan with the flag clear and no fallback happens. -/
theorem C2_fallback_condition (fetch : String → Page) (url : String) (acc failed : Finset String)
    (h : String)
    (hcond : (scanContact fetch url (fetch url) none false acc).contactUrl = none ∨
             (scanContact fetch url (fetch url) none false acc).failedContact = true)
    (hmem : h ∈ filteredHrefs mainPageFilter (fetch url))
    (hval : validateEmail (stripMailto h) = true) :
    stripMailto h ∈ (processOrg fetch url acc failed).1 := by
  have hif : ((scanContact fetch url (fetch url) none false acc).contactUrl.isNone ||
      (scanContact fetch url (fetch url) none false acc).failedContact) = true := by
    rcases hcond with h1 | h1 <;> simp [h1]
  simp only [processOrg, hif, if_true]
  exact fallbackLoop_mem _ _ _ h hmem hval

/-- Claim C2, witness instantiating the amended theorem where no contact
anchor exists, so the fallback pass collects the main page's address. -/
theorem C2_witness : stripMailto "mailto:a2@b.cd" ∈ (processOrg fetchC2w "w" ∅ ∅).1 :=
  C2_fallback_condition fetchC2w "w" ∅ ∅ "mailto:a2@b.cd" (Or.inl (by decide))
    (by decide) (by decide)

/-! ### Claim C3 -/

/-- Claim C3: the code violates it.  For an organization whose main page
has no contact anchor and no `@`-bearing anchor, the failure flag is never
set (it only becomes true inside the contact-page loop), so the final `if
failed_contact` guard records nothing: the run ends with an empty failure
set instead of containing the organization's URL. -/
theorem C3_unresolved_not_recorded :
    filteredHrefs (fun h => containsStr "contact" h) (fetchC3 "s") = [] ∧
    filteredHrefs mainPageFilter (fetchC3 "s") = [] ∧
    runInternational fetchC3 ["s"] = (∅, ∅) := by decide

/-! ### Claim C4 -/

/-- Claim C4, counterexample: the contact page holds two anchors that both
pass the filter and both validate, yet only the first is collected — the
contact-page loop breaks on the first validated address. -/
theorem C4_counterexample :
    filteredHrefs contactPageFilter (fetchC4 "s/contact") =
      ["mailto:info@a.com", "mailto:info@b.com"] ∧
    validateEmail "info@a.com" = true ∧ validateEmail "info@b.com" = true ∧
    runInternational fetchC4 ["s"] = ({"info@a.com"}, ∅) := by decide

/-- Claim C4, amended: only the main-page fallback collects every matching
anchor that validates; the contact-page pass short-circuits, returning
after inserting the first validated anchor and never examining the rest. -/
theorem C4_multiplicity :
    (∀ (hs : List String) (fc : Bool) (acc : Finset String) (h : String),
        h ∈ hs → validateEmail (stripMailto h) = true →
        stripMailto h ∈ (fallbackLoop hs fc acc).2) ∧
    (∀ (h : String) (rest : List String) (fc : Bool) (acc : Finset String),
        validateEmail (stripMailto h) = true →
        validateLoop (h :: rest) fc acc = (false, insert (stripMailto h) acc)) :=
  ⟨fun hs fc acc h => fallbackLoop_mem hs fc acc h,
   fun h rest fc acc hv => by simp [validateLoop, hv]⟩

/-- Claim C4, witness instantiating the amended theorem's fallback half. -/
theorem C4_witness :
    stripMailto "mailto:info@w.xy" ∈ (fallbackLoop ["mailto:info@w.xy"] false ∅).2 :=
  C4_multiplicity.1 ["mailto:info@w.xy"] false ∅ "mailto:info@w.xy" (by decide) (by decide)

/-! ### Claim C5 -/

/-- Claim C5: the validator accepts a string exactly when it matches the
anchored pattern with a nonempty `[A-Za-z0-9._%+-]` local part, `@`, a
nonempty `[A-Za-z0-9.-]` domain, a dot, and a final label of two or more
letters; the four quoted examples behave as stated, with `mailto:x@y.com`
first stripped to `x@y.com` and then accepted. -/
theorem C5_validator_decides_pattern :
    (∀ s : String, validateEmail s = true ↔ SpecEmailPattern s.data) ∧
    validateEmail "a.b+c@sub.example.org" = true ∧
    validateEmail "not-an-email" = false ∧
    validateEmail "x@y" = false ∧
    stripMailto "mailto:x@y.com" = "x@y.com" ∧
    validateEmail "x@y.com" = true :=
  ⟨fun s => matchEmail_iff s.data, by decide, by decide, by decide, by decide, by decide⟩

/-! ### Claim C6 -/

/-- Claim C6, counterexample: `replace('mailto:', '')` deletes every
occurrence of the substring, not just a leading scheme prefix — the string
`amailto:b` does not begin with `mailto:` yet comes out changed, as `ab`. -/
theorem C6_counterexample :
    prefixOf mailtoPat "amailto:b".data = false ∧
    stripMailto "amailto:b" = "ab" ∧
    decide (stripMailto "amailto:b" = "amailto:b") = false := by decide

/-- Claim C6, amended: the raw candidate text is the reference with every
occurrence of the substring `mailto:` deleted (left to right,
non-overlapping); the text passes through unchanged exactly when it
contains no occurrence of `mailto:` at all. -/
theorem C6_strip_characterization (s : String) :
    stripMailto s = s ↔ containsSub mailtoPat s.data = false := by
  obtain ⟨d⟩ := s
  have hmk : ∀ a b : List Char, (⟨a⟩ : String) = ⟨b⟩ ↔ a = b :=
    fun a b => ⟨fun h => congrArg String.data h, fun h => by rw [h]⟩
  simpa [stripMailto, hmk] using stripMailtoL_eq_iff d

/-! ### Claim C7 -/

/-- Claim C7: whatever the processing order, the emitted address list and
the emitted failure list are sorted (the order on strings is the
lexicographic one on their characters), and emission loses no address. -/
theorem C7_sorted_emission (fetch g : String → Page) (urls links : List String) :
    (finalizeSet (runInternational fetch urls).1).Sorted (· ≤ ·) ∧
    (finalizeSet (runInternational fetch urls).2).Sorted (· ≤ ·) ∧
    (finalizeSet (runPublic g links)).Sorted (· ≤ ·) ∧
    (∀ e : String, e ∈ finalizeSet (runInternational fetch urls).1 ↔
        e ∈ (runInternational fetch urls).1) :=
  ⟨Finset.sort_sorted _ _, Finset.sort_sorted _ _, Finset.sort_sorted _ _,
   fun _ => Finset.mem_sort _⟩

/-! ### Claim C8 -/

/-- Claim C8: in non-international mode, link discovery returns exactly
the references of anchors whose reference attribute is present and
contains the target substring, rewritten against the base-URL template,
in document order with duplicates kept; the concrete document with three
qualifying and two non-qualifying anchors yields exactly three URLs. -/
theorem C8_link_discovery :
    (∀ (anchors : List Anchor) (target newurl : String), target ≠ "" →
      get_links anchors target newurl =
        ((anchors.filterMap Anchor.href).filter (fun h => containsStr target h)).map
          (rewriteHref newurl)) ∧
    get_links [⟨some "a-contact"⟩, ⟨some "a-contact"⟩, ⟨some "nope"⟩, ⟨none⟩,
        ⟨some "b-contact"⟩] "contact" "Xhref" =
      ["Xa-contact", "Xa-contact", "Xb-contact"] := by
  constructor
  · intro anchors target newurl ht
    induction anchors with
    | nil => rfl
    | cons a rest ih =>
      obtain ⟨href⟩ := a
      cases href with
      | none => simpa [get_links] using ih
      | some h =>
        by_cases hemp : h = ""
        · subst hemp
          simp [get_links, containsStr_empty_right target ht, ih]
        · have hne : (h != "") = true := by simpa using hemp
          by_cases hct : containsStr target h = true
          · simp [get_links, hne, hct, ih]
          · simp [get_links, hne, hct, ih]
  · decide

/-- Claim C8, witness instantiating the characterization on the concrete
five-anchor document. -/
theorem C8_witness :
    get_links [⟨some "a-contact"⟩, ⟨some "a-contact"⟩, ⟨some "nope"⟩, ⟨none⟩,
        ⟨some "b-contact"⟩] "contact" "Xhref" =
      (([(⟨some "a-contact"⟩ : Anchor), ⟨some "a-contact"⟩, ⟨some "nope"⟩, ⟨none⟩,
          ⟨some "b-contact"⟩].filterMap Anchor.href).filter
        (fun h => containsStr "contact" h)).map (rewriteHref "Xhref") :=
  C8_link_discovery.1 _ "contact" "Xhref" (by decide)

/-! ### Claim C9 -/

/-- Claim C9: in international mode, an absent cities/schools container
makes link discovery surface an error to the caller (the `Except` is not
an `ok`), never a silent empty result; with the container present and
empty, an empty list is a normal `ok`. -/
theorem C9_container_absent_errors (target : String) :
    get_school_links_intl ⟨none⟩ target =
      Except.error "AttributeError: NoneType object has no attribute find_all" ∧
    (get_school_links_intl ⟨none⟩ target).isOk = false ∧
    get_school_links_intl ⟨some []⟩ target = Except.ok [] :=
  ⟨rfl, rfl, rfl⟩

/-! ### Claim C10 -/

/-- Claim C10: when fetching or parsing the details page raises — and also
when the row loop itself raises, as with an `Administrator` label row that
has no second cell — `get_administrator_info` returns the record whose
four fields (administrator names, administrator titles, all emails, all
phones) are each the empty string. -/
theorem C10_error_empty_record :
    (∀ e : String, get_administrator_info (Except.error e) = emptyAdminInfo) ∧
    get_administrator_info (Except.ok [⟨[⟨"Administrator", "Administrator"⟩]⟩]) =
      emptyAdminInfo ∧
    emptyAdminInfo.administratorNames = "" ∧ emptyAdminInfo.administratorTitles = "" ∧
    emptyAdminInfo.allEmails = "" ∧ emptyAdminInfo.allPhones = "" :=
  ⟨fun _ => rfl, by decide, rfl, rfl, rfl, rfl⟩

end EmailGather
